import Mathlib

set_option maxHeartbeats 1000000

/-
  Shallow embedding of cuckoo/web/src/scripts/process_tree.js.

  The file defines the data model and the operations of the three view
  classes of that script (Tree, PaginationBar, ProcessBehaviorView) and
  proves the specified properties about them.  DOM side effects are
  modelled as explicit event lists, the view objects as record states,
  and JS numbers as unbounded integers (every number the script
  manipulates is a small integer page number or process id).
-/

/-! ### Decimal printing and parsing (JS template interpolation / parseInt) -/

/-- Decimal digit character for the value `d % 10` (code point 48 + d % 10). -/
def digitChar (d : Nat) : Char := Char.ofNat (48 + d % 10)

/-- Numeric value of a decimal digit character. -/
def digitVal (c : Char) : Nat := c.toNat - 48

/-- Value of a list of decimal digit characters, most significant first. -/
def decValue (ds : List Char) : Nat := ds.foldl (fun a c => a * 10 + digitVal c) 0

/-- Decimal digits of `n`, least significant first; `fuel` bounds the
recursion depth (any `fuel > n` is enough). -/
def natDigitsRevAux : Nat → Nat → List Char
  | 0, _ => []
  | fuel + 1, n => if n < 10 then [digitChar n] else digitChar n :: natDigitsRevAux fuel (n / 10)

/-- Decimal digit characters of `n`, most significant first. -/
def natToDecList (n : Nat) : List Char := (natDigitsRevAux (n + 1) n).reverse

/-- Decimal string of an integer, as JS template interpolation prints it. -/
def intToDec (n : Int) : String :=
  if n < 0 then List.asString ('-' :: natToDecList (-n).toNat)
  else List.asString (natToDecList n.toNat)

/-- Leading-sign step of JS `parseInt`: consumes one optional `+` or `-`. -/
def splitSign : List Char → Bool × List Char
  | [] => (false, [])
  | c :: r => if c = '-' then (true, r) else if c = '+' then (false, r) else (false, c :: r)

/-- JS `parseInt(s)` in base 10: skips leading spaces, reads an optional
sign and then a maximal run of decimal digits; `none` models `NaN`. -/
def parseIntJS (s : String) : Option Int :=
  let cs := s.data.dropWhile (fun c => c == ' ')
  let sr := splitSign cs
  let ds := sr.2.takeWhile (fun c => c.isDigit)
  if ds.isEmpty then none
  else if sr.1 then some (-(decValue ds : Int)) else some ((decValue ds : Int))

/-- Helper for `jsReplaceFirst`: removes the first occurrence of `pat`. -/
def replaceFirstAux (pat : List Char) : List Char → List Char
  | [] => []
  | c :: cs =>
    if (c :: cs).take pat.length = pat then (c :: cs).drop pat.length
    else c :: replaceFirstAux pat cs

/-- JS `String.prototype.replace` with a plain-string pattern and an empty
replacement string, as used in `href.replace('page:','')`. -/
def jsReplaceFirst (pat s : String) : String :=
  List.asString (replaceFirstAux pat.data s.data)

/-! ### PaginationBar -/

/-- Text of a rendered page item: a page number, or the `'...'` ellipsis. -/
inductive Label where
  | num (n : Int)
  | dots
deriving DecidableEq, Repr

/-- JS loose equality `n == config.currentPage` between an item's text and
a number: the string `'...'` compares false against every number. -/
def labelEqNum (l : Label) (m : Int) : Bool :=
  match l with
  | Label.num n => n == m
  | Label.dots => false

/-- One rendered `li > a` item of the pagination bar. -/
structure PageLink where
  label : Label
  active : Bool
  href : Option String
deriving DecidableEq, Repr

/-- The `config` record of a `PaginationBar` (the `container`, `display`
and `onPaginate` members carry no page arithmetic and are modelled as the
surrounding event machinery). -/
structure PaginationConfig where
  currentPage : Int
  totalPages : Int
deriving DecidableEq, Repr

/-- Integer range `lo, lo+1, ..., hi`, empty when `hi < lo`: the JS loop
`for(i = pageMin; i <= pageMax; i++)`. -/
def intRange (lo hi : Int) : List Int :=
  (List.range (hi + 1 - lo).toNat).map (fun (k : Nat) => lo + (k : Int))

namespace PaginationBar

/-- The inner helper `_page(n)` of `PaginationBar.render`: text `n`,
class `active` when `n == config.currentPage`, and an `href` exactly when
`!isNaN(n)` (so the `'...'` item gets none). -/
def mkPage (config : PaginationConfig) (l : Label) : PageLink :=
  { label := l
    active := labelEqNum l config.currentPage
    href :=
      match l with
      | Label.num n => some ("page:" ++ intToDec n)
      | Label.dots => none }

/-- The link list `PaginationBar.render()` emits: page 1, an optional
leading ellipsis when `config.currentPage-10 > 2`, the window
`pageMin..pageMax`, and an optional trailing ellipsis plus last page when
`config.currentPage+10 < config.totalPages`. -/
def render (config : PaginationConfig) : List PageLink :=
  mkPage config (Label.num 1) ::
    ((if 2 < config.currentPage - 10 then [mkPage config Label.dots] else []) ++
     (intRange (max 2 (config.currentPage - 10))
       (min config.totalPages (config.currentPage + 10))).map
         (fun i => mkPage config (Label.num i)) ++
     (if config.currentPage + 10 < config.totalPages then
        [mkPage config Label.dots, mkPage config (Label.num config.totalPages)]
      else []))

/-- The item texts of the rendered bar, in order. -/
def labels (config : PaginationConfig) : List Label :=
  (render config).map (fun l => l.label)

/-- Whether the rendered list has an ellipsis in position 1, that is
directly after the page-1 link. -/
def leadingEllipsisAfterFirst (config : PaginationConfig) : Bool :=
  decide ((labels config)[1]? = some Label.dots)

/-- Observable effects of `goto`: a re-render, and the `onPaginate` call
with its raw argument. -/
inductive BarEvent where
  | rendered (links : List PageLink)
  | paginate (arg : String)
deriving DecidableEq, Repr

/-- The method `PaginationBar.goto(n)`: assigns
`config.currentPage = parseInt(n)`, re-renders, then fires
`onPaginate(n)`.  A `NaN` parse (which no link of a rendered bar can
produce) would store a non-number in `currentPage` and is outside the
model, returned as `none`. -/
def goto (config : PaginationConfig) (n : String) :
    Option (PaginationConfig × List BarEvent) :=
  match parseIntJS n with
  | none => none
  | some k =>
    let config2 : PaginationConfig := { config with currentPage := k }
    some (config2, [BarEvent.rendered (render config2), BarEvent.paginate n])

/-- The click handler `PaginationBar.bind` attaches to every `a[href]`
item: read the `href`, strip the leading `page:`, call `goto`.  Items
without an `href` (the ellipsis items) never get the handler, modelled as
`none`. -/
def clickLink (config : PaginationConfig) (link : PageLink) :
    Option (PaginationConfig × List BarEvent) :=
  match link.href with
  | none => none
  | some h => goto config (jsReplaceFirst "page:" h)

end PaginationBar

/-! ### Tree -/

namespace Tree

/-- Class state of one tree branch: whether the nested list carries the
`open` class, and whether the toggle control carries `is-open`. -/
structure BranchState where
  listOpen : Bool
  toggleOpen : Bool
deriving DecidableEq, Repr

/-- The method `Tree.toggleBranch`: `toggleClass('open')` on the nested
list, then `toggleClass('is-open', targetList.hasClass('open'))` on the
toggle control, which forces `is-open` to the list's new state. -/
def toggleBranch (s : BranchState) : BranchState :=
  let listOpen2 := !s.listOpen
  { listOpen := listOpen2, toggleOpen := listOpen2 }

end Tree

/-! ### ProcessBehaviorView -/

namespace ProcessBehaviorView

/-- Observable effects of `loadChunk` and its success callback. -/
inductive Event where
  | loaderStart
  | loaderStop
  | httpGet (url : String)
  | tableRendered (html : String)
deriving DecidableEq, Repr

/-- View state of a `ProcessBehaviorView`: whether the constructor built
the `Loader` (it stays `null` when the root holds no `.loading` element),
the current pid (`null` initially), the current page, and whether some
tag-filter link carries the `active` class. -/
structure PBView where
  loaderPresent : Bool
  currentPid : Option Int
  currentPage : Int
  tagsActive : Bool
deriving DecidableEq, Repr

/-- The constructor: `_loader` is created only when a `.loading` element
exists; `currentPage` starts at 1 and `currentPid` at `null`. -/
def mkView (hasLoadingElement : Bool) : PBView :=
  { loaderPresent := hasLoadingElement
    currentPid := none
    currentPage := 1
    tagsActive := false }

/-- JS falsiness of the `filter` argument (`undefined` or `''`). -/
def jsStrFalsy : Option String → Bool
  | none => true
  | some s => s == ""

/-- JS truthiness of `self.currentPid` (`null` and `0` are falsy). -/
def jsIntTruthy : Option Int → Bool
  | none => false
  | some k => !(k == 0)

/-- The unfiltered chunk URL built by `loadChunk`. -/
def chunkUrl (taskId : String) (pid : Int) (page : Int) : String :=
  "/analysis/chunk/" ++ taskId ++ "/" ++ intToDec pid ++ "/" ++ intToDec page

/-- The filtered chunk URL built by `loadChunk`. -/
def filteredUrl (taskId : String) (pid : Int) (filter : String) : String :=
  "/analysis/filtered/" ++ taskId ++ "/" ++ intToDec pid ++ "/" ++ filter

/-- The method `loadChunk(pid, filter)`: records `pid` as `currentPid`,
builds the plain or filtered URL, and when the URL is non-empty starts
the loader and issues the GET.  `Except.error` models the uncaught
`TypeError` of calling `start()` on a `null` loader; the state update and
events before the throw are lost with it, exactly as the exception
unwinds the handler. -/
def loadChunk (taskId : String) (v : PBView) (pid : Int) (filter : Option String) :
    Except String (PBView × List Event) :=
  let v2 : PBView := { v with currentPid := some pid }
  let url :=
    if jsStrFalsy filter then chunkUrl taskId pid v2.currentPage
    else filteredUrl taskId pid (filter.getD "")
  if 0 < url.length then
    if v2.loaderPresent then
      Except.ok (v2, [Event.loaderStart, Event.httpGet url])
    else Except.error "TypeError: this._loader is null"
  else Except.ok (v2, [])

/-- Events of one `loadChunk` call followed by its `$.get` success
callback when a response arrives; `response = none` means the request
never succeeds, so the callback never runs and no further event is
emitted (the script has no error or timeout path). -/
def fullTrace (taskId : String) (v : PBView) (pid : Int) (filter : Option String)
    (response : Option String) : List Event :=
  match loadChunk taskId v pid filter with
  | Except.error _ => []
  | Except.ok (_, evs) =>
    evs ++ (match response with
      | none => []
      | some res => [Event.loaderStop, Event.tableRendered res])

/-- A parsed HTML table fragment, reduced to what `renderTable` inspects:
the `thead th` count and the number of `tbody` children. -/
structure TableFragment where
  columns : Nat
  bodyRows : Nat
deriving DecidableEq, Repr

/-- The row `renderTable` synthesizes for an empty result set: one cell
spanning `colspan` columns holding the reset-filter button. -/
structure NoResultRow where
  colspan : Nat
  hasResetButton : Bool
deriving DecidableEq, Repr

/-- The table after `renderTable` ran: the original body rows plus any
appended no-result rows. -/
structure RenderedTable where
  bodyRows : Nat
  appended : List NoResultRow
deriving DecidableEq, Repr

/-- The empty-result handling of `renderTable`: when the `tbody` has zero
children, append exactly one no-result row spanning all columns with the
reset button; otherwise append nothing. -/
def renderTable (frag : TableFragment) : RenderedTable :=
  if frag.bodyRows == 0 then
    { bodyRows := frag.bodyRows
      appended := [{ colspan := frag.columns, hasResetButton := true }] }
  else { bodyRows := frag.bodyRows, appended := [] }

/-- The reset button's click handler inside `renderTable`: when
`self.currentPid` is truthy, remove the `active` tag classes and call
`loadChunk(self.currentPid)` with no filter; otherwise do nothing. -/
def resetButtonClick (taskId : String) (v : PBView) :
    Except String (PBView × List Event) :=
  if jsIntTruthy v.currentPid then
    loadChunk taskId { v with tagsActive := false } (v.currentPid.getD 0) none
  else Except.ok (v, [])

/-- The record `{pid, ppid, name}` read from the embedded script tag;
`none` fields model absent (`undefined`) JSON members. -/
structure ProcessData where
  pid : Option Int
  ppid : Option Int
  name : Option String
deriving DecidableEq, Repr

/-- An embedded script element; `data` is the record its JSON text
denotes (`JSON.parse` is the library decoder). -/
structure ScriptEl where
  data : ProcessData
deriving DecidableEq, Repr

/-- The helper `parseProcessData(scr)`: the empty record `{}` for a falsy
element, the parsed JSON otherwise. -/
def parseProcessData (scr : Option ScriptEl) : ProcessData :=
  match scr with
  | none => { pid := none, ppid := none, name := none }
  | some s => s.data

/-- What `populate` writes: the three placeholder texts and the
`renderBar(data.pid, 1)` request. -/
structure PopulateResult where
  pidText : Option Int
  ppidText : Option Int
  nameText : Option String
  barPid : Option Int
  barPage : Int
deriving DecidableEq, Repr

/-- The method `populate(el)`: parse the element (tolerating a falsy one),
fill the pid/ppid/name placeholders from the record's fields, then
request a pagination bar for page 1.  Totality of this definition is the
no-throw part of the behaviour. -/
def populate (el : Option ScriptEl) : PopulateResult :=
  let d := parseProcessData el
  { pidText := d.pid, ppidText := d.ppid, nameText := d.name
    barPid := d.pid, barPage := 1 }

end ProcessBehaviorView

/-! ### Contiguity of rendered labels -/

/-- Adjacency check used by the contiguity invariant: two neighbouring
numeric labels must be consecutive; a pair involving an ellipsis is
unconstrained. -/
def consecOk : Label → Label → Bool
  | Label.num m, Label.num n => n == m + 1
  | _, _ => true

/-- A label list is contiguous except across ellipsis markers. -/
def chainOk : List Label → Bool
  | [] => true
  | [_] => true
  | a :: b :: rest => consecOk a b && chainOk (b :: rest)

/-! ### Helper lemmas: decimal printing and parsing round-trip -/

theorem digitChar_isDigit (d : Nat) : (digitChar d).isDigit = true := by
  unfold digitChar
  have h : d % 10 < 10 := Nat.mod_lt _ (by omega)
  generalize d % 10 = m at *
  interval_cases m <;> decide

theorem digitVal_digitChar (d : Nat) : digitVal (digitChar d) = d % 10 := by
  unfold digitChar digitVal
  have h : d % 10 < 10 := Nat.mod_lt _ (by omega)
  generalize d % 10 = m at *
  interval_cases m <;> decide

theorem isDigit_ne_minus {c : Char} (h : c.isDigit = true) : c ≠ '-' := by
  intro heq; subst heq; exact absurd h (by decide)

theorem isDigit_ne_plus {c : Char} (h : c.isDigit = true) : c ≠ '+' := by
  intro heq; subst heq; exact absurd h (by decide)

theorem isDigit_not_space {c : Char} (h : c.isDigit = true) : (c == ' ') = false := by
  rcases hb : (c == ' ') with _ | _
  · rfl
  · have : c = ' ' := by exact eq_of_beq hb
    subst this; exact absurd h (by decide)

theorem natDigitsRevAux_ne_nil (fuel n : Nat) (h : 0 < fuel) :
    natDigitsRevAux fuel n ≠ [] := by
  cases fuel with
  | zero => omega
  | succ f =>
    unfold natDigitsRevAux
    by_cases h10 : n < 10 <;> simp [h10]

theorem natDigitsRevAux_all_digit (fuel : Nat) :
    ∀ n, ∀ c ∈ natDigitsRevAux fuel n, c.isDigit = true := by
  induction fuel with
  | zero => intro n c hc; simp [natDigitsRevAux] at hc
  | succ f ih =>
    intro n c hc
    unfold natDigitsRevAux at hc
    by_cases h10 : n < 10
    · simp [h10] at hc
      subst hc; exact digitChar_isDigit n
    · simp [h10] at hc
      rcases hc with rfl | hc
      · exact digitChar_isDigit n
      · exact ih _ _ hc

theorem decValue_append_single (l : List Char) (c : Char) :
    decValue (l ++ [c]) = decValue l * 10 + digitVal c := by
  simp [decValue, List.foldl_append]

theorem decValue_natDigitsRevAux (fuel : Nat) :
    ∀ n, n < fuel → decValue (natDigitsRevAux fuel n).reverse = n := by
  induction fuel with
  | zero => intro n h; omega
  | succ f ih =>
    intro n h
    unfold natDigitsRevAux
    by_cases h10 : n < 10
    · simp only [h10, if_true, List.reverse_singleton]
      simp [decValue, digitVal_digitChar]
      omega
    · simp only [h10, if_false, List.reverse_cons]
      rw [decValue_append_single, ih (n / 10) (by omega), digitVal_digitChar]
      omega

theorem dropWhile_eq_self_of_all {p : Char → Bool} {l : List Char}
    (h : ∀ c ∈ l, p c = false) : l.dropWhile p = l := by
  cases l with
  | nil => rfl
  | cons c cs => rw [List.dropWhile_cons, h c (by simp)]; simp

theorem takeWhile_eq_self_of_all {p : Char → Bool} {l : List Char}
    (h : ∀ c ∈ l, p c = true) : l.takeWhile p = l := by
  induction l with
  | nil => rfl
  | cons c cs ih =>
    have hc := h c (by simp)
    have hcs := ih (fun x hx => h x (by simp [hx]))
    simp [List.takeWhile_cons, hc, hcs]

theorem splitSign_digit {c : Char} (r : List Char) (hc : c.isDigit = true) :
    splitSign (c :: r) = (false, c :: r) := by
  rw [splitSign, if_neg (isDigit_ne_minus hc), if_neg (isDigit_ne_plus hc)]

theorem parseIntJS_digits (c : Char) (cs : List Char)
    (hc : c.isDigit = true) (hcs : ∀ x ∈ cs, x.isDigit = true) :
    parseIntJS (List.asString (c :: cs)) = some ((decValue (c :: cs) : Nat) : Int) := by
  have hall : ∀ x ∈ c :: cs, x.isDigit = true := by
    intro x hx
    rcases List.mem_cons.mp hx with rfl | hx
    · exact hc
    · exact hcs x hx
  have h1 : (List.asString (c :: cs)).data = c :: cs := rfl
  have h2 : List.dropWhile (fun x => x == ' ') (c :: cs) = c :: cs :=
    dropWhile_eq_self_of_all (fun x hx => isDigit_not_space (hall x hx))
  have h3 : splitSign (c :: cs) = (false, c :: cs) := splitSign_digit cs hc
  have h4 : List.takeWhile (fun x => x.isDigit) (c :: cs) = c :: cs :=
    takeWhile_eq_self_of_all hall
  simp only [parseIntJS, h1, h2, h3, h4]
  simp

theorem parseIntJS_neg_digits (c : Char) (cs : List Char)
    (hc : c.isDigit = true) (hcs : ∀ x ∈ cs, x.isDigit = true) :
    parseIntJS (List.asString ('-' :: c :: cs)) = some (-((decValue (c :: cs) : Nat) : Int)) := by
  have hall : ∀ x ∈ c :: cs, x.isDigit = true := by
    intro x hx
    rcases List.mem_cons.mp hx with rfl | hx
    · exact hc
    · exact hcs x hx
  have h1 : (List.asString ('-' :: c :: cs)).data = '-' :: c :: cs := rfl
  have h2 : List.dropWhile (fun x => x == ' ') ('-' :: c :: cs) = '-' :: c :: cs :=
    dropWhile_eq_self_of_all (by
      intro x hx
      rcases List.mem_cons.mp hx with rfl | hx
      · decide
      · exact isDigit_not_space (hall x hx))
  have h3 : splitSign ('-' :: c :: cs) = (true, c :: cs) := by
    rw [splitSign, if_pos rfl]
  have h4 : List.takeWhile (fun x => x.isDigit) (c :: cs) = c :: cs :=
    takeWhile_eq_self_of_all hall
  simp only [parseIntJS, h1, h2, h3, h4]
  simp

theorem natToDecList_all_digit (n : Nat) : ∀ c ∈ natToDecList n, c.isDigit = true :=
  fun c hc => natDigitsRevAux_all_digit (n + 1) n c (List.mem_reverse.mp hc)

theorem natToDecList_ne_nil (n : Nat) : natToDecList n ≠ [] := by
  intro hnil
  have h := natDigitsRevAux_ne_nil (n + 1) n (by omega)
  unfold natToDecList at hnil
  exact h (by simpa using hnil)

theorem decValue_natToDecList (n : Nat) : decValue (natToDecList n) = n :=
  decValue_natDigitsRevAux (n + 1) n (by omega)

theorem parseIntJS_intToDec (n : Int) : parseIntJS (intToDec n) = some n := by
  unfold intToDec
  by_cases h : n < 0
  · rw [if_pos h]
    rcases hl : natToDecList (-n).toNat with _ | ⟨c, cs⟩
    · exact absurd hl (natToDecList_ne_nil _)
    · have hc : c.isDigit = true := natToDecList_all_digit _ c (by rw [hl]; simp)
      have hcs : ∀ x ∈ cs, x.isDigit = true := by
        intro x hx
        exact natToDecList_all_digit _ x (by rw [hl]; simp [hx])
      rw [parseIntJS_neg_digits c cs hc hcs, ← hl, decValue_natToDecList]
      congr 1
      omega
  · rw [if_neg h]
    rcases hl : natToDecList n.toNat with _ | ⟨c, cs⟩
    · exact absurd hl (natToDecList_ne_nil _)
    · have hc : c.isDigit = true := natToDecList_all_digit _ c (by rw [hl]; simp)
      have hcs : ∀ x ∈ cs, x.isDigit = true := by
        intro x hx
        exact natToDecList_all_digit _ x (by rw [hl]; simp [hx])
      rw [parseIntJS_digits c cs hc hcs, ← hl, decValue_natToDecList]
      congr 1
      omega

/-! ### Helper lemmas: replace and ranges -/

theorem asString_data (s : String) : List.asString s.data = s := rfl

theorem replaceFirstAux_append (p : Char) (ps rest : List Char) :
    replaceFirstAux (p :: ps) ((p :: ps) ++ rest) = rest := by
  rw [List.cons_append, replaceFirstAux]
  rw [← List.cons_append, if_pos (List.take_left (p :: ps) rest), List.drop_left]

theorem jsReplaceFirst_page (s : String) :
    jsReplaceFirst "page:" ("page:" ++ s) = s := by
  unfold jsReplaceFirst
  rw [String.data_append]
  have hd : ("page:" : String).data = 'p' :: 'a' :: 'g' :: 'e' :: ':' :: [] := rfl
  rw [hd, replaceFirstAux_append, asString_data]

theorem mem_intRange {j lo hi : Int} : j ∈ intRange lo hi ↔ lo ≤ j ∧ j ≤ hi := by
  unfold intRange
  simp only [List.mem_map, List.mem_range]
  constructor
  · rintro ⟨k, hk, rfl⟩
    omega
  · rintro ⟨h1, h2⟩
    exact ⟨(j - lo).toNat, by omega, by omega⟩

theorem intRange_cons {lo hi : Int} (h : lo ≤ hi) :
    ∃ t, intRange lo hi = lo :: t := by
  unfold intRange
  have hn : (hi + 1 - lo).toNat = (hi - lo).toNat + 1 := by omega
  rw [hn, List.range_succ_eq_map]
  refine ⟨(List.map Nat.succ (List.range (hi - lo).toNat)).map (fun (k : Nat) => lo + (k : Int)), ?_⟩
  simp

theorem intRange_nil {lo hi : Int} (h : hi < lo) : intRange lo hi = [] := by
  unfold intRange
  have hn : (hi + 1 - lo).toNat = 0 := by omega
  rw [hn]
  rfl

theorem countP_intRange (q : Int → Bool) (c lo hi : Int)
    (hq : ∀ i, q i = true ↔ i = c) :
    (intRange lo hi).countP q = if lo ≤ c ∧ c ≤ hi then 1 else 0 := by
  unfold intRange
  rw [List.countP_map]
  have key : ∀ n : Nat, (List.range n).countP (fun (k : Nat) => q (lo + (k : Int))) =
      if lo ≤ c ∧ c < lo + (n : Int) then 1 else 0 := by
    intro n
    induction n with
    | zero =>
      simp only [List.range_zero, List.countP_nil]
      split_ifs <;> omega
    | succ m ih =>
      rw [List.range_succ, List.countP_append, ih]
      have hsing : List.countP (fun (k : Nat) => q (lo + (k : Int))) [m]
          = if lo + (m : Int) = c then 1 else 0 := by
        by_cases hqm : lo + (m : Int) = c
        · rw [if_pos hqm]
          have hv : q (lo + (m : Int)) = true := (hq _).mpr hqm
          simp [List.countP_cons, hv]
        · rw [if_neg hqm]
          have hv : q (lo + (m : Int)) = false := by
            rcases hb : q (lo + (m : Int)) with _ | _
            · rfl
            · exact absurd ((hq _).mp hb) hqm
          simp [List.countP_cons, hv]
      rw [hsing]
      split_ifs <;> omega
  have hcomp : (q ∘ fun (k : Nat) => lo + (k : Int)) = fun (k : Nat) => q (lo + (k : Int)) := rfl
  rw [hcomp, key]
  split_ifs <;> omega

theorem chain'_intRange (R : Int → Int → Prop) (hR : ∀ a : Int, R a (a + 1)) (lo hi : Int) :
    List.Chain' R (intRange lo hi) := by
  unfold intRange
  rw [List.chain'_map]
  cases hn : (hi + 1 - lo).toNat with
  | zero => simp
  | succ m =>
    refine (List.chain'_range_succ (fun a b => R (lo + (a : Int)) (lo + (b : Int))) m).mpr ?_
    intro k _
    have hcast : lo + ((Nat.succ k : Nat) : Int) = (lo + (k : Int)) + 1 := by push_cast; ring
    rw [hcast]
    exact hR _

/-! ### Helper lemmas: rendered pagination bar -/

theorem mkPage_label (config : PaginationConfig) (l : Label) :
    (PaginationBar.mkPage config l).label = l := rfl

theorem mkPage_active_num (config : PaginationConfig) (n : Int) :
    (PaginationBar.mkPage config (Label.num n)).active = (n == config.currentPage) := rfl

theorem mkPage_active_dots (config : PaginationConfig) :
    (PaginationBar.mkPage config Label.dots).active = false := rfl

theorem mkPage_href_num (config : PaginationConfig) (n : Int) :
    (PaginationBar.mkPage config (Label.num n)).href = some ("page:" ++ intToDec n) := rfl

theorem mkPage_href_dots (config : PaginationConfig) :
    (PaginationBar.mkPage config Label.dots).href = none := rfl

theorem labels_eq (config : PaginationConfig) :
    PaginationBar.labels config =
      Label.num 1 ::
        ((if 2 < config.currentPage - 10 then [Label.dots] else []) ++
         (intRange (max 2 (config.currentPage - 10))
           (min config.totalPages (config.currentPage + 10))).map Label.num ++
         (if config.currentPage + 10 < config.totalPages then
            [Label.dots, Label.num config.totalPages] else [])) := by
  by_cases h1 : 2 < config.currentPage - 10 <;>
    by_cases h2 : config.currentPage + 10 < config.totalPages <;>
      simp [PaginationBar.labels, PaginationBar.render, h1, h2, List.map_map,
        Function.comp, mkPage_label]

theorem mem_render_cases (config : PaginationConfig) {l : PageLink}
    (hl : l ∈ PaginationBar.render config) :
    l = PaginationBar.mkPage config Label.dots ∨
      ∃ n : Int, l = PaginationBar.mkPage config (Label.num n) := by
  unfold PaginationBar.render at hl
  rcases List.mem_cons.mp hl with rfl | hl
  · right; exact ⟨1, rfl⟩
  rcases List.mem_append.mp hl with hl | hl
  · rcases List.mem_append.mp hl with hl | hl
    · by_cases h1 : 2 < config.currentPage - 10
      · rw [if_pos h1] at hl
        rw [List.mem_singleton.mp hl]
        left; rfl
      · rw [if_neg h1] at hl
        cases hl
    · rcases List.mem_map.mp hl with ⟨i, _, rfl⟩
      right; exact ⟨i, rfl⟩
  · by_cases h2 : config.currentPage + 10 < config.totalPages
    · rw [if_pos h2] at hl
      rcases List.mem_cons.mp hl with rfl | hl
      · left; rfl
      · rw [List.mem_singleton.mp hl]
        right; exact ⟨config.totalPages, rfl⟩
    · rw [if_neg h2] at hl
      cases hl

theorem active_label_render (config : PaginationConfig) :
    ∀ l ∈ PaginationBar.render config, l.active = true →
      l.label = Label.num config.currentPage := by
  intro l hl ha
  rcases mem_render_cases config hl with rfl | ⟨n, rfl⟩
  · rw [mkPage_active_dots] at ha
    cases ha
  · rw [mkPage_active_num] at ha
    have hn : n = config.currentPage := by simpa using ha
    rw [mkPage_label, hn]

theorem countP_active_window (config : PaginationConfig) (lo hi : Int) :
    ((intRange lo hi).map (fun i => PaginationBar.mkPage config (Label.num i))).countP
        (fun l => l.active) =
      if lo ≤ config.currentPage ∧ config.currentPage ≤ hi then 1 else 0 := by
  rw [List.countP_map]
  exact countP_intRange _ config.currentPage lo hi (by
    intro i
    simp [Function.comp, mkPage_active_num])

theorem countP_dots_window (config : PaginationConfig) (lo hi : Int) :
    ((intRange lo hi).map (fun i => PaginationBar.mkPage config (Label.num i))).countP
        (fun l => decide (l.label = Label.dots)) = 0 := by
  rw [List.countP_eq_zero]
  intro a ha
  rcases List.mem_map.mp ha with ⟨i, _, rfl⟩
  simp [mkPage_label]

theorem countP_active_render (config : PaginationConfig)
    (h2 : 1 ≤ config.currentPage) (h3 : config.currentPage ≤ config.totalPages) :
    (PaginationBar.render config).countP (fun l => l.active) = 1 := by
  by_cases h1 : 2 < config.currentPage - 10 <;>
    by_cases htr : config.currentPage + 10 < config.totalPages <;>
      simp only [PaginationBar.render, h1, htr, if_true, if_false, ite_true, ite_false,
        List.countP_cons, List.countP_append, List.countP_nil, countP_active_window,
        mkPage_active_num, mkPage_active_dots] <;>
      simp only [beq_iff_eq, Bool.false_eq_true, if_false] <;>
      split_ifs <;> omega

theorem countP_dots_render (config : PaginationConfig) :
    (PaginationBar.render config).countP (fun l => decide (l.label = Label.dots)) ≤ 2 := by
  by_cases h1 : 2 < config.currentPage - 10 <;>
    by_cases htr : config.currentPage + 10 < config.totalPages <;>
      simp only [PaginationBar.render, h1, htr, if_true, if_false, ite_true, ite_false,
        List.countP_cons, List.countP_append, List.countP_nil, countP_dots_window,
        mkPage_label] <;>
      simp

theorem consecOk_dots_right (a : Label) : consecOk a Label.dots = true := by
  cases a <;> rfl

theorem consecOk_dots_left (b : Label) : consecOk Label.dots b = true := by
  cases b <;> rfl

theorem consecOk_num (m n : Int) : consecOk (Label.num m) (Label.num n) = (n == m + 1) := rfl

theorem chainOk_iff_chain' (l : List Label) :
    chainOk l = true ↔ List.Chain' (fun a b => consecOk a b = true) l := by
  induction l with
  | nil => simp [chainOk]
  | cons a t ih =>
    cases t with
    | nil => simp [chainOk]
    | cons b r =>
      rw [chainOk, Bool.and_eq_true, List.chain'_cons]
      exact and_congr Iff.rfl ih

theorem chain'_window (lo hi : Int) :
    List.Chain' (fun a b => consecOk a b = true) ((intRange lo hi).map Label.num) := by
  rw [List.chain'_map]
  exact chain'_intRange _ (fun a => by simp [consecOk_num]) lo hi

theorem chainOk_labels (config : PaginationConfig) :
    chainOk (PaginationBar.labels config) = true := by
  rw [chainOk_iff_chain', labels_eq, List.chain'_cons']
  constructor
  · intro y hy
    by_cases h1 : 2 < config.currentPage - 10
    · rw [if_pos h1] at hy
      simp only [List.cons_append, List.head?_cons, Option.mem_def, Option.some.injEq] at hy
      rw [← hy]
      exact consecOk_dots_right _
    · rw [if_neg h1, List.nil_append] at hy
      by_cases hw : max 2 (config.currentPage - 10) ≤
          min config.totalPages (config.currentPage + 10)
      · obtain ⟨t, ht⟩ := intRange_cons hw
        rw [ht] at hy
        simp only [List.map_cons, List.cons_append, List.head?_cons, Option.mem_def,
          Option.some.injEq] at hy
        rw [← hy, consecOk_num]
        have hpm : max 2 (config.currentPage - 10) = 2 := by omega
        rw [hpm]
        decide
      · rw [intRange_nil (by omega), List.map_nil, List.nil_append] at hy
        by_cases h2 : config.currentPage + 10 < config.totalPages
        · rw [if_pos h2] at hy
          simp only [List.head?_cons, Option.mem_def, Option.some.injEq] at hy
          rw [← hy]
          exact consecOk_dots_right _
        · rw [if_neg h2] at hy
          cases hy
  · apply List.Chain'.append
    · apply List.Chain'.append
      · by_cases h1 : 2 < config.currentPage - 10
        · rw [if_pos h1]
          exact List.chain'_singleton _
        · rw [if_neg h1]
          exact List.chain'_nil
      · exact chain'_window _ _
      · intro x _ y hy
        rcases List.mem_map.mp (List.mem_of_mem_head? hy) with ⟨i, _, rfl⟩
        by_cases h1 : 2 < config.currentPage - 10
        · rw [if_pos h1] at *
          simp only [List.getLast?_singleton, Option.mem_def, Option.some.injEq] at *
          subst_vars
          exact consecOk_dots_left _
        · rw [if_neg h1] at *
          simp at *
    · by_cases h2 : config.currentPage + 10 < config.totalPages
      · rw [if_pos h2]
        rw [List.chain'_cons]
        exact ⟨consecOk_dots_left _, List.chain'_singleton _⟩
      · rw [if_neg h2]
        exact List.chain'_nil
    · intro x _ y hy
      by_cases h2 : config.currentPage + 10 < config.totalPages
      · rw [if_pos h2] at hy
        simp only [List.head?_cons, Option.mem_def, Option.some.injEq] at hy
        rw [← hy]
        exact consecOk_dots_right _
      · rw [if_neg h2] at hy
        cases hy

theorem num_totalPages_mem_labels (config : PaginationConfig)
    (h2 : 1 ≤ config.currentPage) (h3 : config.currentPage ≤ config.totalPages) :
    Label.num config.totalPages ∈ PaginationBar.labels config := by
  rw [labels_eq]
  by_cases htr : config.currentPage + 10 < config.totalPages
  · rw [if_pos htr]
    refine List.mem_cons_of_mem _ (List.mem_append_right _ ?_)
    simp
  · rw [if_neg htr]
    by_cases htp : config.totalPages = 1
    · rw [htp]
      exact List.mem_cons_self _ _
    · refine List.mem_cons_of_mem _ (List.mem_append_left _ (List.mem_append_right _ ?_))
      refine List.mem_map.mpr ⟨config.totalPages, mem_intRange.mpr (by omega), rfl⟩

theorem labels_getElem1 (config : PaginationConfig)
    (h2 : 1 ≤ config.currentPage) (h3 : config.currentPage ≤ config.totalPages) :
    ((PaginationBar.labels config)[1]? = some Label.dots) ↔
      2 < config.currentPage - 10 := by
  rw [labels_eq]
  by_cases h1 : 2 < config.currentPage - 10
  · rw [if_pos h1]
    simp [h1]
  · rw [if_neg h1, List.nil_append]
    by_cases hw : max 2 (config.currentPage - 10) ≤
        min config.totalPages (config.currentPage + 10)
    · obtain ⟨t, ht⟩ := intRange_cons hw
      rw [ht]
      simp [h1]
    · rw [intRange_nil (by omega), List.map_nil, List.nil_append]
      have htr : ¬ (config.currentPage + 10 < config.totalPages) := by omega
      rw [if_neg htr]
      simp [h1]

theorem chunkUrl_length_pos (taskId : String) (pid page : Int) :
    0 < (ProcessBehaviorView.chunkUrl taskId pid page).length := by
  unfold ProcessBehaviorView.chunkUrl
  simp only [String.length_append]
  have h : ("/analysis/chunk/" : String).length = 16 := rfl
  omega

theorem filteredUrl_length_pos (taskId : String) (pid : Int) (filter : String) :
    0 < (ProcessBehaviorView.filteredUrl taskId pid filter).length := by
  unfold ProcessBehaviorView.filteredUrl
  simp only [String.length_append]
  have h : ("/analysis/filtered/" : String).length = 19 := rfl
  omega

theorem loadChunk_ok (taskId : String) (v : ProcessBehaviorView.PBView) (pid : Int)
    (filter : Option String) (hl : v.loaderPresent = true) :
    ProcessBehaviorView.loadChunk taskId v pid filter =
      Except.ok ({ v with currentPid := some pid },
        [ProcessBehaviorView.Event.loaderStart,
         ProcessBehaviorView.Event.httpGet
           (if ProcessBehaviorView.jsStrFalsy filter then
              ProcessBehaviorView.chunkUrl taskId pid v.currentPage
            else ProcessBehaviorView.filteredUrl taskId pid (filter.getD ""))]) := by
  unfold ProcessBehaviorView.loadChunk
  rcases hf : ProcessBehaviorView.jsStrFalsy filter with _ | _
  · simp [hf, hl, filteredUrl_length_pos taskId pid (filter.getD "")]
  · simp [hf, hl, chunkUrl_length_pos taskId pid v.currentPage]

theorem loadChunk_err (taskId : String) (v : ProcessBehaviorView.PBView) (pid : Int)
    (filter : Option String) (hl : v.loaderPresent = false) :
    ProcessBehaviorView.loadChunk taskId v pid filter =
      Except.error "TypeError: this._loader is null" := by
  unfold ProcessBehaviorView.loadChunk
  rcases hf : ProcessBehaviorView.jsStrFalsy filter with _ | _
  · simp [hf, hl, filteredUrl_length_pos taskId pid (filter.getD "")]
  · simp [hf, hl, chunkUrl_length_pos taskId pid v.currentPage]

/-! ### The specified claims -/

/-- C1: for every configuration with `totalPages ≥ 1` and
`1 ≤ currentPage ≤ totalPages`, the link list `PaginationBar.render()`
produces contains a link labelled 1 and a link labelled `totalPages`,
exactly one link carries the active class and every active link is
labelled `currentPage`, at most two ellipsis placeholders occur, and
adjacent numeric page labels are consecutive, so the numeric links are
contiguous except across ellipsis markers. -/
theorem spec_C1 (config : PaginationConfig) (h1 : 1 ≤ config.totalPages)
    (h2 : 1 ≤ config.currentPage) (h3 : config.currentPage ≤ config.totalPages) :
    Label.num 1 ∈ PaginationBar.labels config ∧
    Label.num config.totalPages ∈ PaginationBar.labels config ∧
    (PaginationBar.render config).countP (fun l => l.active) = 1 ∧
    (∀ l ∈ PaginationBar.render config, l.active = true →
      l.label = Label.num config.currentPage) ∧
    (PaginationBar.render config).countP (fun l => decide (l.label = Label.dots)) ≤ 2 ∧
    chainOk (PaginationBar.labels config) = true := by
  refine ⟨?_, num_totalPages_mem_labels config h2 h3, countP_active_render config h2 h3,
    active_label_render config, countP_dots_render config, chainOk_labels config⟩
  rw [labels_eq]
  exact List.mem_cons_self _ _

/-- Witness for C1 at `currentPage = 3`, `totalPages = 5`. -/
theorem spec_C1_witness :
    Label.num 1 ∈ PaginationBar.labels { currentPage := 3, totalPages := 5 } ∧
    Label.num (5 : Int) ∈ PaginationBar.labels { currentPage := 3, totalPages := 5 } ∧
    (PaginationBar.render { currentPage := 3, totalPages := 5 }).countP
      (fun l => l.active) = 1 ∧
    (∀ l ∈ PaginationBar.render { currentPage := 3, totalPages := 5 }, l.active = true →
      l.label = Label.num 3) ∧
    (PaginationBar.render { currentPage := 3, totalPages := 5 }).countP
      (fun l => decide (l.label = Label.dots)) ≤ 2 ∧
    chainOk (PaginationBar.labels { currentPage := 3, totalPages := 5 }) = true :=
  spec_C1 { currentPage := 3, totalPages := 5 } (by decide) (by decide) (by decide)

/-- C2 counterexample: at `currentPage = 12`, `totalPages = 40` there are
11 pages before the current page, so `currentPage - 1 > 10` holds, yet
the rendered list has no ellipsis after the first link (the code tests
`currentPage - 10 > 2`, i.e. needs more than 11 preceding pages), so the
claimed equivalence fails at this input. -/
theorem spec_C2_counterexample :
    ¬ (PaginationBar.leadingEllipsisAfterFirst { currentPage := 12, totalPages := 40 } = true ↔
       10 < (12 : Int) - 1) := by
  decide

/-- C2 amended: for `1 ≤ currentPage ≤ totalPages` the ellipsis appears
directly after the page-1 link exactly when `currentPage - 10 > 2`, that
is when more than 11 pages precede the current page. -/
theorem spec_C2 (config : PaginationConfig)
    (h2 : 1 ≤ config.currentPage) (h3 : config.currentPage ≤ config.totalPages) :
    PaginationBar.leadingEllipsisAfterFirst config = true ↔
      2 < config.currentPage - 10 := by
  unfold PaginationBar.leadingEllipsisAfterFirst
  rw [decide_eq_true_eq]
  exact labels_getElem1 config h2 h3

/-- Witness for the amended C2 at `currentPage = 13`, `totalPages = 40`. -/
theorem spec_C2_witness :
    PaginationBar.leadingEllipsisAfterFirst { currentPage := 13, totalPages := 40 } = true ↔
      2 < (13 : Int) - 10 :=
  spec_C2 { currentPage := 13, totalPages := 40 } (by decide) (by decide)

/-- C3: the rendered labels are page 1, then the optional leading
ellipsis, then the contiguous window from `max 2 (currentPage - 10)` to
`min totalPages (currentPage + 10)`, then a trailing ellipsis and a
final-page link exactly when more than 10 pages follow the current page;
with `totalPages = 40, currentPage = 1` rendering pages 1..11, an
ellipsis and 40, and `totalPages = 5, currentPage = 3` rendering pages
1..5 with no ellipses. -/
theorem spec_C3 :
    (∀ config : PaginationConfig,
      PaginationBar.labels config =
        Label.num 1 ::
          ((if 2 < config.currentPage - 10 then [Label.dots] else []) ++
           (intRange (max 2 (config.currentPage - 10))
             (min config.totalPages (config.currentPage + 10))).map Label.num ++
           (if 10 < config.totalPages - config.currentPage then
              [Label.dots, Label.num config.totalPages] else []))) ∧
    PaginationBar.labels { currentPage := 1, totalPages := 40 } =
      [Label.num 1, Label.num 2, Label.num 3, Label.num 4, Label.num 5, Label.num 6,
       Label.num 7, Label.num 8, Label.num 9, Label.num 10, Label.num 11,
       Label.dots, Label.num 40] ∧
    PaginationBar.labels { currentPage := 3, totalPages := 5 } =
      [Label.num 1, Label.num 2, Label.num 3, Label.num 4, Label.num 5] := by
  refine ⟨?_, by decide, by decide⟩
  intro config
  rw [labels_eq]
  by_cases h2 : config.currentPage + 10 < config.totalPages
  · rw [if_pos h2, if_pos (show 10 < config.totalPages - config.currentPage by omega)]
  · rw [if_neg h2, if_neg (show ¬ 10 < config.totalPages - config.currentPage by omega)]

/-- C4: `loadChunk(pid)` with no filter requests
`/analysis/chunk/{task_id}/{pid}/{currentPage}`, `loadChunk(pid, f)` with
a non-empty filter `f` requests `/analysis/filtered/{task_id}/{pid}/{f}`,
and in both cases the state carried into the request already has
`currentPid = pid` (the assignment precedes the GET). -/
theorem spec_C4 (taskId : String) (v : ProcessBehaviorView.PBView) (pid : Int) (f : String)
    (hl : v.loaderPresent = true) (hf : f ≠ "") :
    ProcessBehaviorView.loadChunk taskId v pid none =
      Except.ok ({ v with currentPid := some pid },
        [ProcessBehaviorView.Event.loaderStart,
         ProcessBehaviorView.Event.httpGet
           (ProcessBehaviorView.chunkUrl taskId pid v.currentPage)]) ∧
    ProcessBehaviorView.loadChunk taskId v pid (some f) =
      Except.ok ({ v with currentPid := some pid },
        [ProcessBehaviorView.Event.loaderStart,
         ProcessBehaviorView.Event.httpGet
           (ProcessBehaviorView.filteredUrl taskId pid f)]) := by
  constructor
  · rw [loadChunk_ok taskId v pid none hl]
    rfl
  · rw [loadChunk_ok taskId v pid (some f) hl]
    have hfalsy : ProcessBehaviorView.jsStrFalsy (some f) = false := by
      unfold ProcessBehaviorView.jsStrFalsy
      simpa using hf
    rw [hfalsy]
    simp

/-- Witness for C4 with `task_id = "1"`, `pid = 5`, filter `"registry"`. -/
theorem spec_C4_witness :
    ProcessBehaviorView.loadChunk "1" (ProcessBehaviorView.mkView true) 5 none =
      Except.ok ({ ProcessBehaviorView.mkView true with currentPid := some 5 },
        [ProcessBehaviorView.Event.loaderStart,
         ProcessBehaviorView.Event.httpGet (ProcessBehaviorView.chunkUrl "1" 5 1)]) ∧
    ProcessBehaviorView.loadChunk "1" (ProcessBehaviorView.mkView true) 5 (some "registry") =
      Except.ok ({ ProcessBehaviorView.mkView true with currentPid := some 5 },
        [ProcessBehaviorView.Event.loaderStart,
         ProcessBehaviorView.Event.httpGet
           (ProcessBehaviorView.filteredUrl "1" 5 "registry")]) :=
  spec_C4 "1" (ProcessBehaviorView.mkView true) 5 "registry" rfl (by decide)

/-- C5: a fragment whose `tbody` has zero rows gets exactly one
synthesized no-results row spanning the table's column count and holding
the reset button; a fragment with at least one row gets none; and the
reset button's click, when `currentPid` is set (truthy), clears the
active tag classes and re-issues `loadChunk(currentPid)` with no
filter. -/
theorem spec_C5 (taskId : String) (frag : ProcessBehaviorView.TableFragment)
    (v : ProcessBehaviorView.PBView) (pid : Int)
    (hpid : v.currentPid = some pid) (hnz : pid ≠ 0) :
    (frag.bodyRows = 0 →
      ProcessBehaviorView.renderTable frag =
        { bodyRows := 0,
          appended := [{ colspan := frag.columns, hasResetButton := true }] }) ∧
    (frag.bodyRows ≠ 0 → (ProcessBehaviorView.renderTable frag).appended = []) ∧
    ProcessBehaviorView.resetButtonClick taskId v =
      ProcessBehaviorView.loadChunk taskId { v with tagsActive := false } pid none := by
  refine ⟨?_, ?_, ?_⟩
  · intro h0
    unfold ProcessBehaviorView.renderTable
    rw [if_pos (show (frag.bodyRows == 0) = true by simp [h0]), h0]
  · intro hne
    unfold ProcessBehaviorView.renderTable
    rw [if_neg (show ¬ (frag.bodyRows == 0) = true by simpa using hne)]
  · unfold ProcessBehaviorView.resetButtonClick
    rw [hpid]
    have ht : ProcessBehaviorView.jsIntTruthy (some pid) = true := by
      unfold ProcessBehaviorView.jsIntTruthy
      simpa using hnz
    rw [ht]
    simp

/-- Witness for C5 with a 4-column zero-row fragment and `currentPid = 7`. -/
theorem spec_C5_witness :
    ((0 : Nat) = 0 →
      ProcessBehaviorView.renderTable { columns := 4, bodyRows := 0 } =
        { bodyRows := 0, appended := [{ colspan := 4, hasResetButton := true }] }) ∧
    ((0 : Nat) ≠ 0 →
      (ProcessBehaviorView.renderTable { columns := 4, bodyRows := 0 }).appended = []) ∧
    ProcessBehaviorView.resetButtonClick "1"
        { loaderPresent := true, currentPid := some 7, currentPage := 1, tagsActive := true } =
      ProcessBehaviorView.loadChunk "1"
        { loaderPresent := true, currentPid := some 7, currentPage := 1, tagsActive := false }
        7 none :=
  spec_C5 "1" { columns := 4, bodyRows := 0 }
    { loaderPresent := true, currentPid := some 7, currentPage := 1, tagsActive := true }
    7 rfl (by decide)

/-- C6: in `loadChunk` the loader starts strictly before the GET event,
the request phase emits no `loaderStop`, a request that never succeeds
leaves no `loaderStop` anywhere in the trace, and the stop appears
exactly inside the success callback's part of the trace. -/
theorem spec_C6 (taskId : String) (v : ProcessBehaviorView.PBView) (pid : Int)
    (filter : Option String) (hl : v.loaderPresent = true) :
    (∃ url : String,
      ProcessBehaviorView.loadChunk taskId v pid filter =
        Except.ok ({ v with currentPid := some pid },
          [ProcessBehaviorView.Event.loaderStart,
           ProcessBehaviorView.Event.httpGet url])) ∧
    ProcessBehaviorView.Event.loaderStop ∉
      ProcessBehaviorView.fullTrace taskId v pid filter none ∧
    (∀ res : String,
      ProcessBehaviorView.fullTrace taskId v pid filter (some res) =
        [ProcessBehaviorView.Event.loaderStart,
         ProcessBehaviorView.Event.httpGet
           (if ProcessBehaviorView.jsStrFalsy filter then
              ProcessBehaviorView.chunkUrl taskId pid v.currentPage
            else ProcessBehaviorView.filteredUrl taskId pid (filter.getD "")),
         ProcessBehaviorView.Event.loaderStop,
         ProcessBehaviorView.Event.tableRendered res]) := by
  refine ⟨⟨_, loadChunk_ok taskId v pid filter hl⟩, ?_, ?_⟩
  · unfold ProcessBehaviorView.fullTrace
    rw [loadChunk_ok taskId v pid filter hl]
    simp
  · intro res
    unfold ProcessBehaviorView.fullTrace
    rw [loadChunk_ok taskId v pid filter hl]
    rfl

/-- Witness for C6 with `task_id = "1"`, `pid = 5`, no filter. -/
theorem spec_C6_witness :
    ProcessBehaviorView.Event.loaderStop ∉
      ProcessBehaviorView.fullTrace "1" (ProcessBehaviorView.mkView true) 5 none none ∧
    ProcessBehaviorView.fullTrace "1" (ProcessBehaviorView.mkView true) 5 none (some "x") =
      [ProcessBehaviorView.Event.loaderStart,
       ProcessBehaviorView.Event.httpGet (ProcessBehaviorView.chunkUrl "1" 5 1),
       ProcessBehaviorView.Event.loaderStop,
       ProcessBehaviorView.Event.tableRendered "x"] :=
  ⟨(spec_C6 "1" (ProcessBehaviorView.mkView true) 5 none rfl).2.1,
   (spec_C6 "1" (ProcessBehaviorView.mkView true) 5 none rfl).2.2 "x"⟩

/-- C7: in every rendered bar a link has an href exactly when its label is
numeric (so only numeric links are clickable), and clicking the link
labelled `n` strips the `page:` href, parses it back to `n`, stores `n`
in `currentPage`, re-renders, and then fires `onPaginate` with the label
string, whose integer value is the new page number. -/
theorem spec_C7 :
    (∀ config : PaginationConfig, ∀ l ∈ PaginationBar.render config,
      l.href.isSome = true ↔ ∃ k : Int, l.label = Label.num k) ∧
    (∀ (config : PaginationConfig) (n : Int),
      PaginationBar.clickLink config (PaginationBar.mkPage config (Label.num n)) =
        some ({ config with currentPage := n },
          [PaginationBar.BarEvent.rendered
             (PaginationBar.render { config with currentPage := n }),
           PaginationBar.BarEvent.paginate (intToDec n)])) ∧
    (∀ n : Int, parseIntJS (intToDec n) = some n) := by
  refine ⟨?_, ?_, parseIntJS_intToDec⟩
  · intro config l hl
    rcases mem_render_cases config hl with rfl | ⟨n, rfl⟩
    · rw [mkPage_href_dots, mkPage_label]
      simp
    · rw [mkPage_href_num, mkPage_label]
      simp
  · intro config n
    have hstep : PaginationBar.clickLink config (PaginationBar.mkPage config (Label.num n)) =
        PaginationBar.goto config (jsReplaceFirst "page:" ("page:" ++ intToDec n)) := rfl
    rw [hstep, jsReplaceFirst_page]
    unfold PaginationBar.goto
    rw [parseIntJS_intToDec]

/-- Witness for C7: the page-1 head link of a rendered bar, and a click on
the link labelled 2. -/
theorem spec_C7_witness :
    ((PaginationBar.mkPage { currentPage := 1, totalPages := 3 } (Label.num 1)).href.isSome = true ↔
      ∃ k : Int,
        (PaginationBar.mkPage { currentPage := 1, totalPages := 3 } (Label.num 1)).label =
          Label.num k) ∧
    PaginationBar.clickLink { currentPage := 1, totalPages := 3 }
        (PaginationBar.mkPage { currentPage := 1, totalPages := 3 } (Label.num 2)) =
      some ({ currentPage := 2, totalPages := 3 },
        [PaginationBar.BarEvent.rendered
           (PaginationBar.render { currentPage := 2, totalPages := 3 }),
         PaginationBar.BarEvent.paginate (intToDec 2)]) ∧
    parseIntJS (intToDec 2) = some 2 :=
  ⟨spec_C7.1 { currentPage := 1, totalPages := 3 } _ (List.mem_cons_self _ _),
   spec_C7.2.1 { currentPage := 1, totalPages := 3 } 2,
   spec_C7.2.2 2⟩

/-- C8 counterexample: a branch whose toggle control carries `is-open`
while its nested list lacks `open` is not restored by two toggles: the
second `toggleClass('is-open', ...)` forces the control to the list's
state instead of flipping it back, so the control ends without `is-open`
although it started with it. -/
theorem spec_C8_counterexample :
    ¬ (Tree.toggleBranch (Tree.toggleBranch { listOpen := false, toggleOpen := true }) =
       { listOpen := false, toggleOpen := true }) := by
  decide

/-- C8 amended: applying `toggleBranch` twice always restores the nested
list's `open` class, and restores the whole branch state whenever the
toggle control's `is-open` class agreed with the list's `open` class
beforehand (which holds after any toggle). -/
theorem spec_C8 (s : Tree.BranchState) :
    (Tree.toggleBranch (Tree.toggleBranch s)).listOpen = s.listOpen ∧
    (s.toggleOpen = s.listOpen → Tree.toggleBranch (Tree.toggleBranch s) = s) := by
  cases s with
  | mk lo tg => cases lo <;> cases tg <;> simp [Tree.toggleBranch]

/-- Witness for the amended C8 at the synchronized open state. -/
theorem spec_C8_witness :
    (Tree.toggleBranch (Tree.toggleBranch { listOpen := true, toggleOpen := true })).listOpen =
      true ∧
    Tree.toggleBranch (Tree.toggleBranch { listOpen := true, toggleOpen := true }) =
      { listOpen := true, toggleOpen := true } :=
  ⟨(spec_C8 { listOpen := true, toggleOpen := true }).1,
   (spec_C8 { listOpen := true, toggleOpen := true }).2 rfl⟩

/-- C9: `populate` with an absent (falsy) script element does not throw
(the model is a total function): `parseProcessData` yields the empty
record, the pid/ppid/name placeholders receive that record's absent
fields, and a pagination bar is requested for page 1; with a present
element the same happens with the element's parsed record. -/
theorem spec_C9 :
    ProcessBehaviorView.populate none =
      { pidText := none, ppidText := none, nameText := none,
        barPid := none, barPage := 1 } ∧
    ∀ d : ProcessBehaviorView.ProcessData,
      ProcessBehaviorView.populate (some { data := d }) =
        { pidText := d.pid, ppidText := d.ppid, nameText := d.name,
          barPid := d.pid, barPage := 1 } :=
  ⟨rfl, fun _ => rfl⟩

/-- C10: the constructor leaves the loader `null` when no loading element
exists, both URLs `loadChunk` can build are always non-empty, and with
the loader absent every `loadChunk` call throws on `this._loader.start()`
before issuing the request, so the whole trace stays empty whatever the
response would have been. -/
theorem spec_C10 (taskId : String) (v : ProcessBehaviorView.PBView) (pid : Int)
    (filter : Option String) (hl : v.loaderPresent = false) :
    (ProcessBehaviorView.mkView false).loaderPresent = false ∧
    0 < (ProcessBehaviorView.chunkUrl taskId pid v.currentPage).length ∧
    0 < (ProcessBehaviorView.filteredUrl taskId pid (filter.getD "f")).length ∧
    ProcessBehaviorView.loadChunk taskId v pid filter =
      Except.error "TypeError: this._loader is null" ∧
    ∀ response : Option String,
      ProcessBehaviorView.fullTrace taskId v pid filter response = [] := by
  refine ⟨rfl, chunkUrl_length_pos taskId pid v.currentPage,
    filteredUrl_length_pos taskId pid (filter.getD "f"),
    loadChunk_err taskId v pid filter hl, ?_⟩
  intro response
  unfold ProcessBehaviorView.fullTrace
  rw [loadChunk_err taskId v pid filter hl]

/-- Witness for C10 on a view built without a loading element. -/
theorem spec_C10_witness :
    (ProcessBehaviorView.mkView false).loaderPresent = false ∧
    0 < (ProcessBehaviorView.chunkUrl "1" 5 1).length ∧
    0 < (ProcessBehaviorView.filteredUrl "1" 5 "f").length ∧
    ProcessBehaviorView.loadChunk "1" (ProcessBehaviorView.mkView false) 5 none =
      Except.error "TypeError: this._loader is null" ∧
    ∀ response : Option String,
      ProcessBehaviorView.fullTrace "1" (ProcessBehaviorView.mkView false) 5 none response = [] :=
  spec_C10 "1" (ProcessBehaviorView.mkView false) 5 none rfl
